import Mathlib

/-!
# Verification of `ncaapushit.go`

A shallow embedding of the release utility `src/ncaapushit.go`.  Strings are
Lean `String`s (lists of characters); the Go standard-library string
operations the program uses (`strings.Trim`, `strings.Split`, `strings.Join`,
`strings.Contains`, `strings.Replace`, `strconv.Atoi`, `strconv.Itoa`,
`bufio.ScanLines`) are modelled by executable functions below, and the
program's own functions (`getVersions`, `getUpdatedMakefile`, the
`tagVersion` / `pushUpdatedMakefile` task pair and the confirmation gate in
`main`) are translated on top of them.  Side-effecting git invocations enter
the model as their captured outputs (for read commands) or as abstract trace
actions (for mutating commands).
-/

set_option autoImplicit false

namespace NcaaPushit

/-! ## Models of the Go string primitives -/

/-- Model of `strings.Trim s cutset`: removes from both ends every leading and
trailing character that belongs to `cut`. -/
def goTrim (s : String) (cut : List Char) : String :=
  String.mk (((s.data.dropWhile (cut.contains ·)).reverse.dropWhile
    (cut.contains ·)).reverse)

/-- `startsWithChars pat l` is true iff `pat` is an initial segment of `l`
(the prefix test underlying `strings.Contains`). -/
def startsWithChars : List Char → List Char → Bool
  | [], _ => true
  | _ :: _, [] => false
  | p :: ps, c :: cs => p = c && startsWithChars ps cs

/-- `hasSubstring pat l` is true iff `pat` occurs contiguously inside `l`. -/
def hasSubstring (pat : List Char) : List Char → Bool
  | [] => startsWithChars pat []
  | c :: rest => startsWithChars pat (c :: rest) || hasSubstring pat rest

/-- Model of `strings.Contains s pat`. -/
def goContains (s pat : String) : Bool :=
  hasSubstring pat.data s.data

/-- Splitting a character list at every occurrence of the separator `sep`;
models `strings.Split` with the one-character separators (`"."`) the program
uses.  Always returns at least one (possibly empty) piece, as in Go. -/
def splitCharAux (sep : Char) : List Char → List (List Char)
  | [] => [[]]
  | c :: rest =>
    if c = sep then [] :: splitCharAux sep rest
    else
      match splitCharAux sep rest with
      | [] => [[c]]
      | h :: t => (c :: h) :: t

/-- Model of `strings.Split s (String.singleton sep)`. -/
def goSplitChar (sep : Char) (s : String) : List String :=
  (splitCharAux sep s.data).map String.mk

/-- Interleaving a one-character separator between pieces; the character-level
core of `strings.Join`. -/
def joinCharAux (sep : Char) : List (List Char) → List Char
  | [] => []
  | [x] => x
  | x :: y :: t => x ++ sep :: joinCharAux sep (y :: t)

/-- Model of `strings.Join parts (String.singleton sep)`. -/
def goJoinChar (sep : Char) (parts : List String) : String :=
  String.mk (joinCharAux sep (parts.map String.data))

/-- Character-level worker for `strings.Replace s old new (-1)`; replaces the
leftmost non-overlapping occurrences.  The extra `fuel` argument (instantiated
with the length of the scanned list) only makes the recursion structural; with
`fuel ≥ l.length` it never runs out. -/
def replaceAllFuel (old new : List Char) : Nat → List Char → List Char
  | _, [] => if old.isEmpty then new else []
  | 0, l => l
  | fuel + 1, c :: rest =>
    if old.isEmpty then new ++ c :: replaceAllFuel old new fuel rest
    else if startsWithChars old (c :: rest) then
      new ++ replaceAllFuel old new fuel ((c :: rest).drop old.length)
    else c :: replaceAllFuel old new fuel rest

/-- Model of `strings.Replace s old new (-1)` (replace every occurrence). -/
def goReplaceAll (s old new : String) : String :=
  String.mk (replaceAllFuel old.data new.data s.data.length s.data)

/-- Largest value of Go's 64-bit `int` (the program runs on a 64-bit
platform, so `int` is `int64`). -/
def maxInt64 : Int := 9223372036854775807

/-- Smallest value of Go's 64-bit `int`. -/
def minInt64 : Int := -9223372036854775808

/-- The two non-nil error kinds of `strconv.Atoi`: `notNumeric` models
`strconv.ErrSyntax`, `outOfRange` models `strconv.ErrRange`. -/
inductive AtoiErr : Type
  | notNumeric : AtoiErr
  | outOfRange : AtoiErr
deriving DecidableEq

/-- Full model of `strconv.Atoi` on 64-bit `int`: the `(value, err)` pair Go
returns.  A string that is not an optionally-signed decimal numeral yields
`(0, ErrSyntax)`; a numeral beyond the `int64` range yields the clamped
`MaxInt64`/`MinInt64` together with `ErrRange`; otherwise the exact value
with a nil error. -/
def goAtoiFull (s : String) : Int × Option AtoiErr :=
  match s.data with
  | [] => (0, some .notNumeric)
  | c :: cs =>
    let neg : Bool := c = '-'
    let digits : List Char := if c = '-' ∨ c = '+' then cs else c :: cs
    if !digits.isEmpty && digits.all Char.isDigit then
      let n : Nat := digits.foldl (fun acc d => acc * 10 + (d.toNat - '0'.toNat)) 0
      let v : Int := if neg then -(n : Int) else (n : Int)
      if v > maxInt64 then (maxInt64, some .outOfRange)
      else if v < minInt64 then (minInt64, some .outOfRange)
      else (v, none)
    else (0, some .notNumeric)

/-- Model of the value returned by `strconv.Atoi` when its error is discarded
with `_`, exactly as `getVersions` does on lines 236, 244 and 251: a
non-numeric string silently yields `0`, an out-of-range numeral silently
yields the clamped `MaxInt64`/`MinInt64`. -/
def goAtoi (s : String) : Int :=
  (goAtoiFull s).1

/-- The error side of `strconv.Atoi`: `some v` exactly when the error is nil
(syntactically valid and within the `int64` range). -/
def goAtoiRes (s : String) : Option Int :=
  match goAtoiFull s with
  | (v, none) => some v
  | _ => none

/-- Wrapping a mathematical integer into the two's-complement `int64` range,
as Go's defined overflow behaviour does for `newVersion[i]++`. -/
def int64Wrap (n : Int) : Int :=
  (n + 9223372036854775808) % 18446744073709551616 - 9223372036854775808

/-- Model of `strconv.Itoa`. -/
def goItoa (i : Int) : String :=
  toString i

/-! ## `getVersions` (src/ncaapushit.go, lines 199–258) -/

/-- The recoverable errors (`pushError` values) raised by the program.  The
constructors carry the data interpolated into the corresponding message
strings; the surrounding prose of each message is elided. -/
inductive PushErr : Type
  | topicRequired : PushErr
  | topicMismatch (topic branch : String) : PushErr
  | entryNotFound (module latest : String) : PushErr
  | writeFail : PushErr
deriving DecidableEq

/-- Result of the version resolution: either the `(newVersion, latest,
resolvedTopic)` success triple (the resolved topic models the write to the
global `topicOpt` on line 224), a returned `pushError`, or a Go runtime
panic (index out of range on `splitVersion`, or slicing an empty `describe`
output). -/
inductive GVResult : Type
  | ok (newVersion latest resolvedTopic : String) : GVResult
  | err (e : PushErr) : GVResult
  | panicked : GVResult
deriving DecidableEq

/-- Reading `l[i]` in Go: `none` is an index-out-of-range panic. -/
def goIndex (l : List String) (i : Nat) : Option String :=
  l.get? i

/-- Writing `l[i] = v` in Go: `none` is an index-out-of-range panic. -/
def goIndexSet (l : List String) (i : Nat) (v : String) : Option (List String) :=
  if i < l.length then some (l.set i v) else none

/-- The `switch bumpOpt` block of `getVersions` (lines 234–256) acting on
`splitVersion`: the selected column is read with `strconv.Atoi` (error
discarded), incremented by `newVersion[i]++` — a 64-bit increment that wraps
at `MaxInt64` by Go's defined two's-complement overflow, modelled by
`int64Wrap` — written back with `strconv.Itoa`, and every column strictly to
its right among the first three is set to `"0"`.  A bump value outside the
three cases hits no `case` and leaves `splitVersion` unchanged. -/
def bumpSwitch (bumpOpt : String) (sv : List String) : Option (List String) :=
  if bumpOpt = "major" then do
    let s0 ← goIndex sv 0
    let sv ← goIndexSet sv 0 (goItoa (int64Wrap (goAtoi s0 + 1)))
    let sv ← goIndexSet sv 1 "0"
    let sv ← goIndexSet sv 2 "0"
    pure sv
  else if bumpOpt = "minor" then do
    let s1 ← goIndex sv 1
    let sv ← goIndexSet sv 1 (goItoa (int64Wrap (goAtoi s1 + 1)))
    let sv ← goIndexSet sv 2 "0"
    pure sv
  else if bumpOpt = "patch" then do
    let s2 ← goIndex sv 2
    let sv ← goIndexSet sv 2 (goItoa (int64Wrap (goAtoi s2 + 1)))
    pure sv
  else
    pure sv

/-- The cutset of `strings.Trim(currentBranch, " \n\t\r")` (line 212). -/
def branchCut : List Char := [' ', '\n', '\t', '\r']

/-- The cutset of `strings.Trim(string(gitVer[1:]), " \n\t")` (line 230). -/
def tagCut : List Char := [' ', '\n', '\t']

/-- Model of `getVersions` (lines 199–258).  `branchRaw` and `tagRaw` are the
captured outputs of the read-only git queries `rev-parse --abbrev-ref HEAD`
and `describe master --abbrev=0 --tags`; the `git up` call on line 208 and
the progress printing are pure I/O and do not enter the result.  `tagRaw` is
sliced from its second byte (`gitVer[1:]`, a panic when empty), trimmed, split
on `"."`, pushed through the bump switch and re-joined with `"."`. -/
def getVersions (branchRaw tagRaw bumpOpt topicOpt : String) : GVResult :=
  let currentBranch := goTrim branchRaw branchCut
  if currentBranch = "master" ∧ topicOpt = "" then
    .err .topicRequired
  else if topicOpt ≠ "" ∧ currentBranch ≠ topicOpt ∧ currentBranch ≠ "master" then
    .err (.topicMismatch topicOpt currentBranch)
  else
    let topic := if topicOpt = "" then currentBranch else topicOpt
    match tagRaw.data with
    | [] => .panicked
    | _ :: tagTail =>
      let latest := goTrim (String.mk tagTail) tagCut
      match bumpSwitch bumpOpt (goSplitChar '.' latest) with
      | none => .panicked
      | some sv => .ok (goJoinChar '.' sv) latest topic

/-! ## `getUpdatedMakefile` (src/ncaapushit.go, lines 262–290) -/

/-- The search key built on line 269:
`"projects[" + module + "][download][tag] = \"v" + latest + "\""`. -/
def seekLineFor (module latest : String) : String :=
  "projects[" ++ module ++ "][download][tag] = \"v" ++ latest ++ "\""

/-- The cutset of `strings.Trim(string(latest), "\n\t ")` (line 276). -/
def latestCut : List Char := ['\n', '\t', ' ']

/-- The scanner loop of lines 273–283 rendered as recursion over the list of
scanned lines: every line containing the search key (`p`) is appended in its
rewritten form (`f`) and raises the `replacedVersion` flag; every other line
is appended unchanged. -/
def makefileScanLoop (p : String → Bool) (f : String → String) :
    List String → List String × Bool
  | [] => ([], false)
  | line :: rest =>
    let (out, rep) := makefileScanLoop p f rest
    if p line then (f line :: out, true) else (line :: out, rep)

/-- Model of `getUpdatedMakefile` (lines 262–290) on the scanned lines of the
makefile: each line containing the search key has every occurrence of the
trimmed current version replaced by the new version; if no line contained the
key, the accumulated (unchanged) lines are returned together with the
entry-not-found `pushError`. -/
def getUpdatedMakefile (lines : List String) (module newVersion latest : String) :
    List String × Option PushErr :=
  let seekLine := seekLineFor module latest
  let (outFile, replacedVersion) :=
    makefileScanLoop (fun line => goContains line seekLine)
      (fun line => goReplaceAll line (goTrim latest latestCut) newVersion) lines
  (outFile, if replacedVersion then none else some (.entryNotFound module latest))

/-! ## `pushUpdatedMakefile` write-back and the scanner's line model -/

/-- The byte content written back to the makefile on lines 301–303:
`strings.Join(*outFile, "\n")` — a single separating newline between lines
and no trailing newline. -/
def writtenMakefile (outFile : List String) : String :=
  goJoinChar '\n' outFile

/-- `dropCR` of `bufio.ScanLines`: removes one terminal carriage return from
a scanned token. -/
def dropCR (l : List Char) : List Char :=
  if l.getLast? = some '\r' then l.dropLast else l

/-- The token loop of `bufio.ScanLines` driving the scanner of lines 268–283:
a token is emitted (with `dropCR`) at every newline, and a final unterminated
token is emitted only when non-empty. -/
def scanLinesAux : List Char → List Char → List (List Char)
  | acc, [] => if acc.isEmpty then [] else [dropCR acc.reverse]
  | acc, c :: rest =>
    if c = '\n' then dropCR acc.reverse :: scanLinesAux [] rest
    else scanLinesAux (c :: acc) rest

/-- The list of lines produced by scanning a file's byte content with
`bufio.Scanner` under `bufio.ScanLines`. -/
def scanLines (s : String) : List String :=
  (scanLinesAux [] s.data).map String.mk

/-! ## Commit message (src/ncaapushit.go, line 402) -/

/-- Model of `fmt.Sprintf("\n%s %s -> %s", topicOpt, module, newVersion)`:
the format string begins with a newline, so the produced commit message does
too. -/
def commitMsg (topic module newVersion : String) : String :=
  "\n" ++ topic ++ " " ++ module ++ " -> " ++ newVersion

/-! ## The concurrent release/publish phase

After the operator confirms, `main` spawns `tagVersion` as a goroutine
(line 393) and continues into `getUpdatedMakefile` / `pushUpdatedMakefile`.
Each mutating step of the two tasks is an `Action`; an execution of the
phase is an interleaving of the two tasks' action sequences, constrained by
the `taggingComplete` channel: the receive on line 313 cannot occur before
the send on line 195. -/

/-- One mutating step of the release/publish phase, in source order. -/
inductive Action : Type
  /-- `git checkout master` in the module repo (line 186). -/
  | coMasterModule : Action
  /-- `git branch -d topicOpt` in the module repo (line 187). -/
  | deleteTopicBranch : Action
  /-- `git tag v<version>` in the module repo (line 192). -/
  | createTag : Action
  /-- `git push origin --tags` in the module repo (line 193). -/
  | pushTags : Action
  /-- `complete <- true` on the `taggingComplete` channel (line 195). -/
  | sendDone : Action
  /-- `git up` in the site repo (line 298). -/
  | updateSite : Action
  /-- `git checkout master` in the site repo (line 299). -/
  | coMasterSite : Action
  /-- `ioutil.WriteFile` of the rewritten makefile (line 303). -/
  | writeMakefile : Action
  /-- `git commit` of the makefile in the site repo (line 310). -/
  | commitSite : Action
  /-- `<-taggingComplete` (line 313). -/
  | recvDone : Action
  /-- `git push origin master` in the site repo (line 315). -/
  | pushSite : Action
deriving DecidableEq

/-- The action sequence of `tagVersion` (lines 183–196): the checkout/delete
cleanup runs exactly when `topicOpt != "master"`, then the tag is created,
tags are pushed, and the one-shot completion signal is sent. -/
def tagVersionActions (cleanup : Bool) : List Action :=
  (if cleanup then [.coMasterModule, .deleteTopicBranch] else [])
    ++ [.createTag, .pushTags, .sendDone]

/-- The action sequence of `pushUpdatedMakefile` (lines 293–318): update and
checkout the site repo, write the makefile, commit it, wait on the channel,
then push. -/
def pushUpdatedMakefileActions : List Action :=
  [.updateSite, .coMasterSite, .writeMakefile, .commitSite, .recvDone, .pushSite]

/-- All interleavings of two sequences, with `fuel` (instantiated with the
total length) making the recursion structural. -/
def interleavingsFuel {α : Type} : Nat → List α → List α → List (List α)
  | _, [], ys => [ys]
  | _, x :: xs, [] => [x :: xs]
  | 0, xs, _ => [xs]
  | fuel + 1, x :: xs, y :: ys =>
    (interleavingsFuel fuel xs (y :: ys)).map (x :: ·)
      ++ (interleavingsFuel fuel (x :: xs) ys).map (y :: ·)

/-- All interleavings of the steps of two concurrently running tasks. -/
def interleavings {α : Type} (xs ys : List α) : List (List α) :=
  interleavingsFuel (xs.length + ys.length) xs ys

/-- `precedes a b t`: in trace `t`, action `a` occurs strictly before the
first occurrence of action `b` (in the traces considered here every action
occurs at most once). -/
def precedes (a b : Action) (t : List Action) : Bool :=
  (t.takeWhile (fun x => x != b)).contains a

/-! ## Confirmation gate (src/ncaapushit.go, lines 379–393) -/

/-- The cutset of `strings.Trim(text, "\n")` (line 385). -/
def confirmCut : List Char := ['\n']

/-- Orchestrator phase after the confirmation prompt. -/
inductive RunPhase : Type
  | aborted : RunPhase
  | releasing : RunPhase
deriving DecidableEq

/-- Model of lines 384–390: the operator's input line is trimmed of newlines
and compared against the literal `"y"`; anything else prints `Aborting...`
and returns from `main` before `go tagVersion` is reached. -/
def confirmGate (inputLine : String) : RunPhase :=
  if goTrim inputLine confirmCut = "y" then .releasing else .aborted

/-- The set of possible action traces of a run after the confirmation prompt
(lines 387–403): an aborted run performs no action at all; a confirmed run
performs some interleaving of the two tasks' action sequences. -/
def tracesAfterPrompt (inputLine : String) (cleanup : Bool) : List (List Action) :=
  match confirmGate inputLine with
  | .aborted => []
  | .releasing => interleavings (tagVersionActions cleanup) pushUpdatedMakefileActions

/-! ## Helper lemmas -/

theorem splitCharAux_ne_nil (sep : Char) (l : List Char) : splitCharAux sep l ≠ [] := by
  cases l with
  | nil => simp [splitCharAux]
  | cons c rest =>
    simp only [splitCharAux]
    split
    · simp
    · split
      · simp
      · simp

theorem joinCharAux_splitCharAux (sep : Char) (l : List Char) :
    joinCharAux sep (splitCharAux sep l) = l := by
  induction l with
  | nil => rfl
  | cons c rest ih =>
    simp only [splitCharAux]
    by_cases hc : c = sep
    · subst hc
      simp only [if_pos rfl]
      cases h : splitCharAux c rest with
      | nil => exact absurd h (splitCharAux_ne_nil c rest)
      | cons x t =>
        rw [h] at ih
        simp [joinCharAux, ih]
    · simp only [if_neg hc]
      cases h : splitCharAux sep rest with
      | nil => exact absurd h (splitCharAux_ne_nil sep rest)
      | cons x t =>
        rw [h] at ih
        cases t with
        | nil => simpa [joinCharAux] using congrArg (c :: ·) ih
        | cons y t' => simpa [joinCharAux] using congrArg (c :: ·) ih

theorem goJoinChar_goSplitChar (sep : Char) (s : String) :
    goJoinChar sep (goSplitChar sep s) = s := by
  apply String.ext
  simp only [goJoinChar, goSplitChar, List.map_map]
  have hid : (String.data ∘ String.mk) = id := funext fun l => rfl
  rw [hid, List.map_id, joinCharAux_splitCharAux]

theorem goJoinChar_dot_three (x y z : String) :
    goJoinChar '.' [x, y, z] = x ++ "." ++ y ++ "." ++ z := by
  apply String.ext
  simp [goJoinChar, joinCharAux, String.data_append]

theorem makefileScanLoop_eq (p : String → Bool) (f : String → String)
    (lines : List String) :
    makefileScanLoop p f lines =
      (lines.map fun l => if p l then f l else l, lines.any p) := by
  induction lines with
  | nil => rfl
  | cons l rest ih =>
    simp only [makefileScanLoop, ih, List.map_cons, List.any_cons]
    by_cases hp : p l <;> simp [hp]

theorem scanLinesAux_append (x : List Char) (rest : List Char) (acc : List Char)
    (hx : '\n' ∉ x) :
    scanLinesAux acc (x ++ '\n' :: rest) =
      dropCR (acc.reverse ++ x) :: scanLinesAux [] rest := by
  induction x generalizing acc with
  | nil => simp [scanLinesAux]
  | cons c x' ih =>
    have hc : c ≠ '\n' := fun h => hx (h ▸ List.mem_cons_self c x')
    have hx' : '\n' ∉ x' := fun h => hx (List.mem_cons_of_mem c h)
    simp only [List.cons_append, scanLinesAux, if_neg hc]
    rw [show (x'.append ('\n' :: rest)) = x' ++ '\n' :: rest from rfl,
      ih (c :: acc) hx']
    simp

theorem dropCR_eq_self (l : List Char) (h : l.getLast? ≠ some '\r') : dropCR l = l := by
  simp [dropCR, h]

theorem scanLinesAux_join (lines : List (List Char)) (hne : lines ≠ [])
    (hlines : ∀ l ∈ lines, '\n' ∉ l ∧ l.getLast? ≠ some '\r') :
    scanLinesAux [] (joinCharAux '\n' lines ++ ['\n']) = lines := by
  induction lines with
  | nil => exact absurd rfl hne
  | cons x rest ih =>
    obtain ⟨hx, hcr⟩ := hlines x (List.mem_cons_self x rest)
    cases rest with
    | nil =>
      simp only [joinCharAux]
      rw [show ('\n' :: [] : List Char) = '\n' :: [] from rfl] at *
      rw [scanLinesAux_append x [] [] hx]
      simp [scanLinesAux, dropCR_eq_self x hcr]
    | cons y t =>
      have hrest : ∀ l ∈ y :: t, '\n' ∉ l ∧ l.getLast? ≠ some '\r' :=
        fun l hl => hlines l (List.mem_cons_of_mem x hl)
      simp only [joinCharAux, List.append_assoc, List.cons_append]
      rw [scanLinesAux_append x ((joinCharAux '\n' (y :: t)) ++ ['\n']) [] hx]
      rw [ih (by simp) hrest]
      simp [dropCR_eq_self x hcr]

theorem tagData_ne_nil_of_split3 (tagRaw ra rb rc : String)
    (hsplit : goSplitChar '.' (goTrim (String.mk tagRaw.data.tail) tagCut)
      = [ra, rb, rc]) : tagRaw.data ≠ [] := by
  intro h
  rw [h] at hsplit
  simp [goSplitChar, goTrim, splitCharAux] at hsplit

theorem bumpSwitch_major (ra rb rc : String) :
    bumpSwitch "major" [ra, rb, rc]
      = some [goItoa (int64Wrap (goAtoi ra + 1)), "0", "0"] := rfl

theorem bumpSwitch_minor (ra rb rc : String) :
    bumpSwitch "minor" [ra, rb, rc]
      = some [ra, goItoa (int64Wrap (goAtoi rb + 1)), "0"] := rfl

theorem bumpSwitch_patch (ra rb rc : String) :
    bumpSwitch "patch" [ra, rb, rc]
      = some [ra, rb, goItoa (int64Wrap (goAtoi rc + 1))] := rfl

theorem bumpSwitch_default (bumpOpt : String) (sv : List String)
    (h1 : bumpOpt ≠ "major") (h2 : bumpOpt ≠ "minor") (h3 : bumpOpt ≠ "patch") :
    bumpSwitch bumpOpt sv = some sv := by
  simp [bumpSwitch, h1, h2, h3]

theorem bumpSwitch_three_isSome (bumpOpt ra rb rc : String) :
    (bumpSwitch bumpOpt [ra, rb, rc]).isSome := by
  by_cases h1 : bumpOpt = "major"
  · rw [h1, bumpSwitch_major]; rfl
  by_cases h2 : bumpOpt = "minor"
  · rw [h2, bumpSwitch_minor]; rfl
  by_cases h3 : bumpOpt = "patch"
  · rw [h3, bumpSwitch_patch]; rfl
  rw [bumpSwitch_default bumpOpt _ h1 h2 h3]; rfl

theorem getVersions_eq_of_topic_match (branchRaw tagRaw bumpOpt topicOpt : String)
    (htopic : topicOpt ≠ "") (hcb : goTrim branchRaw branchCut = topicOpt)
    (htag : tagRaw.data ≠ []) :
    getVersions branchRaw tagRaw bumpOpt topicOpt =
      match bumpSwitch bumpOpt
          (goSplitChar '.' (goTrim (String.mk tagRaw.data.tail) tagCut)) with
      | none => .panicked
      | some sv =>
          .ok (goJoinChar '.' sv)
            (goTrim (String.mk tagRaw.data.tail) tagCut) topicOpt := by
  obtain ⟨hd, tl, h⟩ := List.exists_cons_of_ne_nil htag
  unfold getVersions
  rw [hcb, h]
  simp [htopic]

theorem getVersions_eq_of_no_topic (branchRaw tagRaw bumpOpt : String)
    (hcb : goTrim branchRaw branchCut ≠ "master") (htag : tagRaw.data ≠ []) :
    getVersions branchRaw tagRaw bumpOpt "" =
      match bumpSwitch bumpOpt
          (goSplitChar '.' (goTrim (String.mk tagRaw.data.tail) tagCut)) with
      | none => .panicked
      | some sv =>
          .ok (goJoinChar '.' sv)
            (goTrim (String.mk tagRaw.data.tail) tagCut)
            (goTrim branchRaw branchCut) := by
  obtain ⟨hd, tl, h⟩ := List.exists_cons_of_ne_nil htag
  unfold getVersions
  rw [h]
  simp [hcb]

theorem goJoinChar_dot_major (x : String) :
    goJoinChar '.' [x, "0", "0"] = x ++ ".0.0" := by
  apply String.ext
  simp [goJoinChar, joinCharAux, String.data_append]

theorem goJoinChar_dot_minor (x y : String) :
    goJoinChar '.' [x, y, "0"] = x ++ "." ++ y ++ ".0" := by
  apply String.ext
  simp [goJoinChar, joinCharAux, String.data_append]

theorem goJoinChar_dot_patch_one (x y : String) :
    goJoinChar '.' [x, y, "1"] = x ++ "." ++ y ++ ".1" := by
  apply String.ext
  simp [goJoinChar, joinCharAux, String.data_append]

/-! ## Claim theorems -/

/-- C2 counterexample: at the current version `9223372036854775807.0.0`
(first column `MaxInt64`, parsed exactly by `strconv.Atoi`), a major bump
does NOT produce `(a+1).0.0 = 9223372036854775808.0.0`: the `newVersion[0]++`
increment wraps by two's-complement overflow and the program returns
`-9223372036854775808.0.0`. -/
theorem getVersions_bump_rule_counterexample :
    goAtoi "9223372036854775807" = 9223372036854775807
    ∧ getVersions "NCAA-5\n" "v9223372036854775807.0.0\n" "major" "NCAA-5"
        = .ok "-9223372036854775808.0.0" "9223372036854775807.0.0" "NCAA-5"
    ∧ ("-9223372036854775808.0.0" : String) ≠ "9223372036854775808.0.0" :=
  ⟨by decide, by decide, by decide⟩

/-- C2 amended: for a current version whose tag splits into the three columns
`ra.rb.rc` read by `strconv.Atoi` as `(a, b, c)`, `getVersions` with
bump=major yields `w(a+1).0.0`, with bump=minor yields `ra.w(b+1).0`, and
with bump=patch yields `ra.rb.w(c+1)`, where `w` wraps the increment into the
two's-complement `int64` range (`w(x+1) = x+1` for every `x ≠ MaxInt64`): the
columns left of the incremented column are passed through as their original
strings and all columns to its right are reset to `"0"`. -/
theorem getVersions_bump_rule
    (branchRaw tagRaw topicOpt ra rb rc : String) (a b c : Int)
    (htopic : topicOpt ≠ "")
    (hcb : goTrim branchRaw branchCut = topicOpt)
    (hsplit : goSplitChar '.' (goTrim (String.mk tagRaw.data.tail) tagCut)
      = [ra, rb, rc])
    (ha : goAtoi ra = a) (hb : goAtoi rb = b) (hc : goAtoi rc = c) :
    getVersions branchRaw tagRaw "major" topicOpt
      = .ok (goItoa (int64Wrap (a + 1)) ++ ".0.0")
          (goTrim (String.mk tagRaw.data.tail) tagCut) topicOpt
    ∧ getVersions branchRaw tagRaw "minor" topicOpt
      = .ok (ra ++ "." ++ goItoa (int64Wrap (b + 1)) ++ ".0")
          (goTrim (String.mk tagRaw.data.tail) tagCut) topicOpt
    ∧ getVersions branchRaw tagRaw "patch" topicOpt
      = .ok (ra ++ "." ++ rb ++ "." ++ goItoa (int64Wrap (c + 1)))
          (goTrim (String.mk tagRaw.data.tail) tagCut) topicOpt := by
  have htag := tagData_ne_nil_of_split3 tagRaw ra rb rc hsplit
  refine ⟨?_, ?_, ?_⟩
  · rw [getVersions_eq_of_topic_match _ _ _ _ htopic hcb htag, hsplit,
      bumpSwitch_major, ha]
    show GVResult.ok (goJoinChar '.' [goItoa (int64Wrap (a + 1)), "0", "0"]) _ _ = _
    rw [goJoinChar_dot_major]
  · rw [getVersions_eq_of_topic_match _ _ _ _ htopic hcb htag, hsplit,
      bumpSwitch_minor, hb]
    show GVResult.ok (goJoinChar '.' [ra, goItoa (int64Wrap (b + 1)), "0"]) _ _ = _
    rw [goJoinChar_dot_minor]
  · rw [getVersions_eq_of_topic_match _ _ _ _ htopic hcb htag, hsplit,
      bumpSwitch_patch, hc]
    show GVResult.ok (goJoinChar '.' [ra, rb, goItoa (int64Wrap (c + 1))]) _ _ = _
    rw [goJoinChar_dot_three]

/-- Witness for the amended C2 at the branch `NCAA-5`, tag `v1.2.3` and the
three bump kinds. -/
theorem getVersions_bump_rule_witness :
    ("NCAA-5" : String) ≠ ""
    ∧ goTrim "NCAA-5\n" branchCut = "NCAA-5"
    ∧ goSplitChar '.' (goTrim (String.mk ("v1.2.3\n" : String).data.tail) tagCut)
        = ["1", "2", "3"]
    ∧ goAtoi "1" = 1 ∧ goAtoi "2" = 2 ∧ goAtoi "3" = 3
    ∧ (getVersions "NCAA-5\n" "v1.2.3\n" "major" "NCAA-5"
        = .ok (goItoa (int64Wrap (1 + 1)) ++ ".0.0")
            (goTrim (String.mk ("v1.2.3\n" : String).data.tail) tagCut) "NCAA-5"
      ∧ getVersions "NCAA-5\n" "v1.2.3\n" "minor" "NCAA-5"
        = .ok ("1" ++ "." ++ goItoa (int64Wrap (2 + 1)) ++ ".0")
            (goTrim (String.mk ("v1.2.3\n" : String).data.tail) tagCut) "NCAA-5"
      ∧ getVersions "NCAA-5\n" "v1.2.3\n" "patch" "NCAA-5"
        = .ok ("1" ++ "." ++ "2" ++ "." ++ goItoa (int64Wrap (3 + 1)))
            (goTrim (String.mk ("v1.2.3\n" : String).data.tail) tagCut) "NCAA-5") :=
  ⟨by decide, by decide, by decide, by decide, by decide, by decide,
    getVersions_bump_rule "NCAA-5\n" "v1.2.3\n" "NCAA-5" "1" "2" "3" 1 2 3
      (by decide) (by decide) (by decide) (by decide) (by decide) (by decide)⟩

/-- C10: a bump option outside major/minor/patch falls through the `switch`
without a `default` case, so `getVersions` succeeds and the new version is
the unchanged latest version. -/
theorem getVersions_unknown_bump
    (branchRaw tagRaw bumpOpt topicOpt : String)
    (htopic : topicOpt ≠ "") (hcb : goTrim branchRaw branchCut = topicOpt)
    (hb1 : bumpOpt ≠ "major") (hb2 : bumpOpt ≠ "minor") (hb3 : bumpOpt ≠ "patch")
    (htag : tagRaw.data ≠ []) :
    getVersions branchRaw tagRaw bumpOpt topicOpt
      = .ok (goTrim (String.mk tagRaw.data.tail) tagCut)
          (goTrim (String.mk tagRaw.data.tail) tagCut) topicOpt := by
  rw [getVersions_eq_of_topic_match _ _ _ _ htopic hcb htag,
    bumpSwitch_default _ _ hb1 hb2 hb3]
  show GVResult.ok (goJoinChar '.' (goSplitChar '.' _)) _ _ = _
  rw [goJoinChar_goSplitChar]

/-- Witness for C10 at bump option `bogus`. -/
theorem getVersions_unknown_bump_witness :
    ("NCAA-5" : String) ≠ ""
    ∧ goTrim "NCAA-5\n" branchCut = "NCAA-5"
    ∧ ("bogus" : String) ≠ "major" ∧ ("bogus" : String) ≠ "minor"
    ∧ ("bogus" : String) ≠ "patch"
    ∧ ("v1.2.3\n" : String).data ≠ []
    ∧ getVersions "NCAA-5\n" "v1.2.3\n" "bogus" "NCAA-5"
        = .ok (goTrim (String.mk ("v1.2.3\n" : String).data.tail) tagCut)
            (goTrim (String.mk ("v1.2.3\n" : String).data.tail) tagCut) "NCAA-5" :=
  ⟨by decide, by decide, by decide, by decide, by decide, by decide,
    getVersions_unknown_bump "NCAA-5\n" "v1.2.3\n" "bogus" "NCAA-5"
      (by decide) (by decide) (by decide) (by decide) (by decide) (by decide)⟩

/-- C4: branch/topic validation of `getVersions`: branch `master` with no
topic fails with the topic-required error; a supplied topic that differs from
a non-`master` branch fails with the topic-mismatch error; no topic on a
non-`master` branch succeeds with the branch as the resolved topic; a topic
equal to the branch succeeds (success cases exercised with the well-formed
tag `v1.2.3`). -/
theorem getVersions_branch_topic_validation
    (branchRaw tagRaw bumpOpt topicOpt : String) :
    (goTrim branchRaw branchCut = "master" → topicOpt = "" →
      getVersions branchRaw tagRaw bumpOpt topicOpt = .err .topicRequired)
    ∧ (topicOpt ≠ "" → goTrim branchRaw branchCut ≠ topicOpt →
        goTrim branchRaw branchCut ≠ "master" →
        getVersions branchRaw tagRaw bumpOpt topicOpt
          = .err (.topicMismatch topicOpt (goTrim branchRaw branchCut)))
    ∧ (topicOpt = "" → goTrim branchRaw branchCut ≠ "master" →
        ∃ nv, getVersions branchRaw "v1.2.3\n" bumpOpt topicOpt
          = .ok nv "1.2.3" (goTrim branchRaw branchCut))
    ∧ (topicOpt = goTrim branchRaw branchCut →
        ∃ nv, getVersions branchRaw "v1.2.3\n" bumpOpt topicOpt
          = .ok nv "1.2.3" topicOpt) := by
  have hsplit : goSplitChar '.'
      (goTrim (String.mk (("v1.2.3\n" : String).data.tail)) tagCut)
      = ["1", "2", "3"] := by decide
  have hlat : goTrim (String.mk (("v1.2.3\n" : String).data.tail)) tagCut
      = "1.2.3" := by decide
  refine ⟨?_, ?_, ?_, ?_⟩
  · intro h1 h2
    unfold getVersions
    rw [h1, h2]
    simp
  · intro ht hne hnm
    unfold getVersions
    simp [ht, hne, hnm]
  · intro ht hnm
    subst ht
    rw [getVersions_eq_of_no_topic branchRaw "v1.2.3\n" bumpOpt hnm (by decide),
      hsplit]
    obtain ⟨sv, hsv⟩ :=
      Option.isSome_iff_exists.mp (bumpSwitch_three_isSome bumpOpt "1" "2" "3")
    rw [hsv, hlat]
    exact ⟨goJoinChar '.' sv, rfl⟩
  · intro ht
    by_cases h0 : topicOpt = ""
    · have hnm : goTrim branchRaw branchCut ≠ "master" := by
        rw [← ht, h0]; decide
      rw [h0, getVersions_eq_of_no_topic branchRaw "v1.2.3\n" bumpOpt hnm
        (by decide), hsplit]
      obtain ⟨sv, hsv⟩ :=
        Option.isSome_iff_exists.mp (bumpSwitch_three_isSome bumpOpt "1" "2" "3")
      rw [hsv, hlat, ← ht, h0]
      exact ⟨goJoinChar '.' sv, rfl⟩
    · rw [getVersions_eq_of_topic_match branchRaw "v1.2.3\n" bumpOpt topicOpt h0
        ht.symm (by decide), hsplit]
      obtain ⟨sv, hsv⟩ :=
        Option.isSome_iff_exists.mp (bumpSwitch_three_isSome bumpOpt "1" "2" "3")
      rw [hsv, hlat]
      exact ⟨goJoinChar '.' sv, rfl⟩

/-- Witness for C4 at the four concrete branch/topic configurations of the
spec. -/
theorem getVersions_branch_topic_validation_witness :
    getVersions "master\n" "v9.9.9\n" "patch" "" = .err .topicRequired
    ∧ getVersions "NCAA-5\n" "v9.9.9\n" "patch" "NCAA-9"
        = .err (.topicMismatch "NCAA-9" (goTrim "NCAA-5\n" branchCut))
    ∧ (∃ nv, getVersions "NCAA-5\n" "v1.2.3\n" "patch" ""
        = .ok nv "1.2.3" (goTrim "NCAA-5\n" branchCut))
    ∧ (∃ nv, getVersions "NCAA-5\n" "v1.2.3\n" "patch" "NCAA-5"
        = .ok nv "1.2.3" "NCAA-5") :=
  ⟨(getVersions_branch_topic_validation "master\n" "v9.9.9\n" "patch" "").1
      (by decide) rfl,
    (getVersions_branch_topic_validation "NCAA-5\n" "v9.9.9\n" "patch" "NCAA-9").2.1
      (by decide) (by decide) (by decide),
    (getVersions_branch_topic_validation "NCAA-5\n" "v1.2.3\n" "patch" "").2.2.1
      rfl (by decide),
    (getVersions_branch_topic_validation "NCAA-5\n" "v1.2.3\n" "patch" "NCAA-5").2.2.2
      (by decide)⟩

/-- C6 counterexample: with the malformed tag `vx.2.3` (first column not an
integer, `strconv.Atoi` reports an error) a major bump does NOT fail:
`getVersions` succeeds and produces the bumped version `1.0.0`. -/
theorem getVersions_malformed_tag_counterexample :
    goAtoiFull "x" = (0, some .notNumeric)
    ∧ getVersions "NCAA-5\n" "vx.2.3\n" "major" "NCAA-5"
        = .ok "1.0.0" "x.2.3" "NCAA-5" :=
  ⟨by decide, by decide⟩

/-- C6 amended: when the latest tag still splits into three dot-separated
columns but a column is not an integer numeral (the `strconv.Atoi` outcome is
`(0, ErrSyntax)`), `getVersions` does not fail: the error is discarded (`_`),
the column value is taken as 0 and a bumped version is still produced — a
patch bump turns the unparsable patch column into `1`.  (Only a tag with
fewer than three columns aborts the run, via an index-out-of-range panic.) -/
theorem getVersions_malformed_column_tolerated
    (branchRaw tagRaw topicOpt ra rb rc : String)
    (htopic : topicOpt ≠ "")
    (hcb : goTrim branchRaw branchCut = topicOpt)
    (hsplit : goSplitChar '.' (goTrim (String.mk tagRaw.data.tail) tagCut)
      = [ra, rb, rc])
    (hbad : goAtoiFull rc = (0, some .notNumeric)) :
    getVersions branchRaw tagRaw "patch" topicOpt
      = .ok (ra ++ "." ++ rb ++ ".1")
          (goTrim (String.mk tagRaw.data.tail) tagCut) topicOpt := by
  have htag := tagData_ne_nil_of_split3 tagRaw ra rb rc hsplit
  rw [getVersions_eq_of_topic_match _ _ _ _ htopic hcb htag, hsplit,
    bumpSwitch_patch]
  have h0 : goAtoi rc = 0 := by rw [goAtoi, hbad]
  rw [h0]
  show GVResult.ok (goJoinChar '.' [ra, rb, goItoa (int64Wrap (0 + 1))]) _ _ = _
  rw [show goItoa (int64Wrap (0 + 1)) = "1" from rfl, goJoinChar_dot_patch_one]

/-- Witness for the amended C6 at the tag `v1.2.x`. -/
theorem getVersions_malformed_column_tolerated_witness :
    ("NCAA-5" : String) ≠ ""
    ∧ goTrim "NCAA-5\n" branchCut = "NCAA-5"
    ∧ goSplitChar '.' (goTrim (String.mk ("v1.2.x\n" : String).data.tail) tagCut)
        = ["1", "2", "x"]
    ∧ goAtoiFull "x" = (0, some .notNumeric)
    ∧ getVersions "NCAA-5\n" "v1.2.x\n" "patch" "NCAA-5"
        = .ok ("1" ++ "." ++ "2" ++ ".1")
            (goTrim (String.mk ("v1.2.x\n" : String).data.tail) tagCut) "NCAA-5" :=
  ⟨by decide, by decide, by decide, by decide,
    getVersions_malformed_column_tolerated "NCAA-5\n" "v1.2.x\n" "NCAA-5"
      "1" "2" "x" (by decide) (by decide) (by decide) (by decide)⟩

/-- C3 counterexample: in a manifest where TWO lines contain the search key,
`getUpdatedMakefile` rewrites BOTH of them (the loop has no first-match cut),
so two lines — not exactly one — differ from the input. -/
theorem getUpdatedMakefile_first_line_counterexample :
    getUpdatedMakefile
        ["projects[foo][download][tag] = \"v1.2.3\"",
         "projects[foo][download][tag] = \"v1.2.3\""] "foo" "1.3.0" "1.2.3"
      = (["projects[foo][download][tag] = \"v1.3.0\"",
          "projects[foo][download][tag] = \"v1.3.0\""], none)
    ∧ ("projects[foo][download][tag] = \"v1.3.0\"" : String)
        ≠ "projects[foo][download][tag] = \"v1.2.3\"" :=
  ⟨by decide, by decide⟩

/-- C3 amended: for every manifest with at least one line containing the
search key, `getUpdatedMakefile` rewrites EVERY line containing the key
(replacing each occurrence of the trimmed current-version substring with the
new version), returns every line not containing the key byte-identical to the
input, and reports no error; when exactly one line contains the key, exactly
that line is rewritten. -/
theorem getUpdatedMakefile_rewrites_matching_lines
    (lines : List String) (module newVersion latest : String)
    (hmatch : ∃ l ∈ lines, goContains l (seekLineFor module latest) = true) :
    getUpdatedMakefile lines module newVersion latest
      = (lines.map fun l =>
          if goContains l (seekLineFor module latest)
          then goReplaceAll l (goTrim latest latestCut) newVersion
          else l,
        none) := by
  simp only [getUpdatedMakefile, makefileScanLoop_eq]
  have hany : (lines.any fun l => goContains l (seekLineFor module latest))
      = true := by
    rw [List.any_eq_true]
    obtain ⟨l, hl, hc⟩ := hmatch
    exact ⟨l, hl, hc⟩
  simp [hany]

/-- Witness for the amended C3 on a three-line manifest with a single
matching line. -/
theorem getUpdatedMakefile_rewrites_matching_lines_witness :
    (∃ l ∈ (["core = 7.x",
             "projects[foo][download][tag] = \"v1.2.3\"",
             "projects[bar][download][tag] = \"v1.2.3\""] : List String),
        goContains l (seekLineFor "foo" "1.2.3") = true)
    ∧ getUpdatedMakefile
        ["core = 7.x",
         "projects[foo][download][tag] = \"v1.2.3\"",
         "projects[bar][download][tag] = \"v1.2.3\""] "foo" "1.3.0" "1.2.3"
      = (["core = 7.x",
          "projects[foo][download][tag] = \"v1.3.0\"",
          "projects[bar][download][tag] = \"v1.2.3\""], none) :=
  ⟨by decide,
    getUpdatedMakefile_rewrites_matching_lines
      ["core = 7.x",
       "projects[foo][download][tag] = \"v1.2.3\"",
       "projects[bar][download][tag] = \"v1.2.3\""] "foo" "1.3.0" "1.2.3"
      (by decide)⟩

/-- C5: when no manifest line contains the module-plus-current-version search
key, `getUpdatedMakefile` returns the entry-not-found error together with the
input lines unmodified. -/
theorem getUpdatedMakefile_no_match_error
    (lines : List String) (module newVersion latest : String)
    (hnone : ∀ l ∈ lines, goContains l (seekLineFor module latest) = false) :
    getUpdatedMakefile lines module newVersion latest
      = (lines, some (.entryNotFound module latest)) := by
  simp only [getUpdatedMakefile, makefileScanLoop_eq]
  have hmap : (lines.map fun l =>
      if goContains l (seekLineFor module latest)
      then goReplaceAll l (goTrim latest latestCut) newVersion
      else l) = lines := by
    induction lines with
    | nil => rfl
    | cons l rest ih =>
      have hl := hnone l (List.mem_cons_self l rest)
      rw [List.map_cons, hl, if_neg (by simp),
        ih fun x hx => hnone x (List.mem_cons_of_mem l hx)]
  have hany : (lines.any fun l => goContains l (seekLineFor module latest))
      = false := by
    rw [List.any_eq_false]
    intro l hl
    simp [hnone l hl]
  rw [hmap, hany]
  simp

/-- Witness for C5 on a manifest without the key. -/
theorem getUpdatedMakefile_no_match_error_witness :
    (∀ l ∈ (["core = 7.x", "projects[bar][download][tag] = \"v1.2.3\""] :
        List String), goContains l (seekLineFor "foo" "1.2.3") = false)
    ∧ getUpdatedMakefile
        ["core = 7.x", "projects[bar][download][tag] = \"v1.2.3\""]
        "foo" "1.3.0" "1.2.3"
      = (["core = 7.x", "projects[bar][download][tag] = \"v1.2.3\""],
         some (.entryNotFound "foo" "1.2.3")) :=
  ⟨by decide,
    getUpdatedMakefile_no_match_error
      ["core = 7.x", "projects[bar][download][tag] = \"v1.2.3\""]
      "foo" "1.3.0" "1.2.3" (by decide)⟩

/-- C7 counterexample: the commit message built on line 402 begins with a
newline (the format string is `"\n%s %s -> %s"`), so with resolved topic
`NCAA-5`, module `foo` and new version `1.3.0` it is NOT the string
`NCAA-5 foo -> 1.3.0`. -/
theorem commitMsg_counterexample :
    commitMsg "NCAA-5" "foo" "1.3.0" ≠ "NCAA-5 foo -> 1.3.0" := by
  decide

/-- C7 amended: for module `foo` and new version `1.3.0`, the commit message
passed to the site-repo commit equals a NEWLINE followed by
`<topic> foo -> 1.3.0`. -/
theorem commitMsg_leading_newline (topic : String) :
    commitMsg topic "foo" "1.3.0" = "\n" ++ topic ++ " foo -> 1.3.0" := by
  apply String.ext
  simp [commitMsg, String.data_append]

/-- C8: any confirmation input whose newline-trimmed text is not the literal
`y` moves the run to `Aborted`: neither task is started and no action trace —
hence no mutating git or file-write step — exists after the prompt. -/
theorem nonaffirmative_input_aborts (inputLine : String) (cleanup : Bool)
    (h : goTrim inputLine confirmCut ≠ "y") :
    confirmGate inputLine = .aborted
    ∧ tracesAfterPrompt inputLine cleanup = [] := by
  refine ⟨?_, ?_⟩
  · simp [confirmGate, h]
  · simp [tracesAfterPrompt, confirmGate, h]

/-- Witness for C8 at the input line `n`. -/
theorem nonaffirmative_input_aborts_witness :
    goTrim "n\n" confirmCut ≠ "y"
    ∧ (confirmGate "n\n" = .aborted ∧ tracesAfterPrompt "n\n" true = []) :=
  ⟨by decide, nonaffirmative_input_aborts "n\n" true (by decide)⟩

/-- C9: the content written back by `pushUpdatedMakefile` is the scanned
lines joined with single `"\n"` separators and NO trailing newline: scanning
a manifest whose text ends in a final newline reproduces exactly its lines,
and writing those lines back yields the original text minus that final
newline — strictly different bytes even though every line is preserved. -/
theorem writtenMakefile_drops_final_newline (lines : List String)
    (hne : lines ≠ [])
    (hlines : ∀ l ∈ lines, '\n' ∉ l.data ∧ l.data.getLast? ≠ some '\r') :
    scanLines (goJoinChar '\n' lines ++ "\n") = lines
    ∧ writtenMakefile (scanLines (goJoinChar '\n' lines ++ "\n")) ++ "\n"
        = goJoinChar '\n' lines ++ "\n"
    ∧ writtenMakefile (scanLines (goJoinChar '\n' lines ++ "\n"))
        ≠ goJoinChar '\n' lines ++ "\n" := by
  have hscan : scanLines (goJoinChar '\n' lines ++ "\n") = lines := by
    unfold scanLines
    have hdata : (goJoinChar '\n' lines ++ "\n").data
        = joinCharAux '\n' (lines.map String.data) ++ ['\n'] := by
      rw [String.data_append]; rfl
    rw [hdata, scanLinesAux_join (lines.map String.data)
      (by simpa using hne)
      (fun l hl => by
        obtain ⟨s, hs, rfl⟩ := List.mem_map.mp hl
        exact hlines s hs)]
    rw [List.map_map, show (String.mk ∘ String.data) = id from funext fun s => rfl,
      List.map_id]
  refine ⟨hscan, ?_, ?_⟩
  · rw [hscan]
    rfl
  · rw [hscan]
    intro h
    have hlen := congrArg (fun s => s.data.length) h
    simp only [writtenMakefile, String.data_append, List.length_append,
      show ("\n" : String).data = ['\n'] from rfl, List.length_cons,
      List.length_nil] at hlen
    omega

/-- Witness for C9 on the two-line manifest `a\nb\n`. -/
theorem writtenMakefile_drops_final_newline_witness :
    (["a", "b"] : List String) ≠ []
    ∧ (scanLines (goJoinChar '\n' ["a", "b"] ++ "\n") = ["a", "b"]
      ∧ writtenMakefile (scanLines (goJoinChar '\n' ["a", "b"] ++ "\n")) ++ "\n"
          = goJoinChar '\n' ["a", "b"] ++ "\n"
      ∧ writtenMakefile (scanLines (goJoinChar '\n' ["a", "b"] ++ "\n"))
          ≠ goJoinChar '\n' ["a", "b"] ++ "\n") :=
  ⟨by decide,
    writtenMakefile_drops_final_newline ["a", "b"] (by decide) (by decide)⟩

set_option maxRecDepth 10000 in
theorem c1_all_traces_cleanup :
    ((interleavings (tagVersionActions true) pushUpdatedMakefileActions).all
      fun t => !(precedes .sendDone .recvDone t)
        || precedes .pushTags .pushSite t) = true := by
  decide

set_option maxRecDepth 10000 in
theorem c1_all_traces_no_cleanup :
    ((interleavings (tagVersionActions false) pushUpdatedMakefileActions).all
      fun t => !(precedes .sendDone .recvDone t)
        || precedes .pushTags .pushSite t) = true := by
  decide

/-- C1: in every interleaved trace of the two confirmed-phase tasks in which
the channel receive of `pushUpdatedMakefile` happens after the channel send
of `tagVersion` (the only executions the one-shot channel permits), the site
push `git push origin master` occurs strictly after the module tag push
`git push origin --tags` — for either value of the cleanup branch. -/
theorem site_push_after_tag_push (cleanup : Bool) (t : List Action)
    (ht : t ∈ interleavings (tagVersionActions cleanup) pushUpdatedMakefileActions)
    (hchan : precedes .sendDone .recvDone t = true) :
    precedes .pushTags .pushSite t = true := by
  cases cleanup with
  | true =>
    have hall := List.all_eq_true.mp c1_all_traces_cleanup t ht
    rw [hchan] at hall
    simpa using hall
  | false =>
    have hall := List.all_eq_true.mp c1_all_traces_no_cleanup t ht
    rw [hchan] at hall
    simpa using hall

set_option maxRecDepth 10000 in
/-- Witness for C1 at the fully sequential trace (module release task first,
then site publish task). -/
theorem site_push_after_tag_push_witness :
    (tagVersionActions true ++ pushUpdatedMakefileActions)
        ∈ interleavings (tagVersionActions true) pushUpdatedMakefileActions
    ∧ precedes .sendDone .recvDone
        (tagVersionActions true ++ pushUpdatedMakefileActions) = true
    ∧ precedes .pushTags .pushSite
        (tagVersionActions true ++ pushUpdatedMakefileActions) = true :=
  ⟨by decide, by decide,
    site_push_after_tag_push true _ (by decide) (by decide)⟩

end NcaaPushit
